import Mathlib

/-!
Verification of the Quip_Bot agent subsystem: a shallow embedding of the
tool-discovery service (`src/agent/src/agent/tools/discovery.py`), the Redis
change publisher (`src/agent/src/agent/redis/tool_publisher.py`), the agent
graph confirmation/rejection nodes (`src/agent/src/agent/graph.py`) and the
run orchestrator helpers (`src/agent/src/agent/agent_runner.py`), together
with theorems settling the specified behavioural properties.
-/

namespace QuipBot

/-- A tool as seen by the discovery service: a `BaseTool` with its `name` and
the optional `_mcp_server_name` attribute (`none` models the attribute being
absent, in which case readers fall back to the `"built-in"` default of
`getattr(tool, '_mcp_server_name', 'built-in')`). -/
structure Tool where
  name : String
  mcpServerName : Option String
deriving DecidableEq, Repr

/-- A tool info record `{"name": ..., "mcpServerName": ...}` as produced by
`ToolDiscoveryService.compare_tool_sets`. -/
structure ToolInfo where
  name : String
  mcpServerName : String
deriving DecidableEq, Repr

/-- Helper for `dedupFirst`: keeps the first occurrence of each element,
tracking the elements already seen. -/
def dedupFirstGo : List String → List String → List String
  | [], _ => []
  | n :: rest, seen =>
    if n ∈ seen then dedupFirstGo rest seen
    else n :: dedupFirstGo rest (n :: seen)

/-- Python `dict` key order: first-occurrence order with duplicates removed
(models the keys of `current_tool_info` built by insertion). -/
def dedupFirst (l : List String) : List String :=
  dedupFirstGo l []

/-- The value stored in the `current_tool_info` dict for a given name: the
last tool with that name wins (dict overwrite), and a missing
`_mcp_server_name` attribute defaults to `"built-in"`. -/
def dictServer (ts : List Tool) (n : String) : String :=
  match ts.reverse.find? (fun t => t.name = n) with
  | some t => t.mcpServerName.getD "built-in"
  | none => "built-in"

/-- Models `list(current_tool_info.values())` from `compare_tool_sets`: one entry
per distinct tool name, in first-occurrence order, carrying its source tag. -/
def currentToolInfo (ts : List Tool) : List ToolInfo :=
  (dedupFirst (ts.map (·.name))).map (fun n => ⟨n, dictServer ts n⟩)

/-- Models `ToolDiscoveryService.compare_tool_sets`: diff the current tools against
the cached inventory (`none` = no cache yet). First discovery reports the
whole current set as added; otherwise added = current − cached (with source
tags) and removed = cached − current (tagged `"unknown"`). -/
def compareToolSets (cached : Option (List String)) (ts : List Tool) :
    List ToolInfo × List ToolInfo :=
  let info := currentToolInfo ts
  match cached with
  | none => (info, [])
  | some inv =>
    let currentNames := ts.map (·.name)
    let added := info.filter (fun i => !(decide (i.name ∈ inv)))
    let removed := (inv.filter (fun n => !(decide (n ∈ currentNames)))).map
      (fun n => ({ name := n, mcpServerName := "unknown" } : ToolInfo))
    (added, removed)

/-- Models `ToolDiscoveryService.get_tool_changes`: compute the diff, then replace
the cached inventory with the set of current tool names (side effect made
explicit: the new cache is returned). -/
def getToolChanges (cached : Option (List String)) (ts : List Tool) :
    (List ToolInfo × List ToolInfo) × Option (List String) :=
  (compareToolSets cached ts, some (dedupFirst (ts.map (·.name))))

/-- Models `ToolDiscoveryService.get_cached_tool_inventory`: returns a copy of the
cached inventory if it is truthy, else `None` — note a cached *empty* set is
falsy in Python and also yields `None`. -/
def getCachedToolInventory (cached : Option (List String)) :
    Option (List String) :=
  match cached with
  | none => none
  | some l => if l.isEmpty then none else some l

/-- Models `ToolDiscoveryService._discover_local_tools`: load the local tools
(`none` models the loader raising, which is caught and yields `[]`) and tag
each with `_mcp_server_name = "built-in"`. -/
def discoverLocalTools (localResult : Option (List String)) : List Tool :=
  match localResult with
  | none => []
  | some ns => ns.map (fun n => ({ name := n, mcpServerName := some "built-in" } : Tool))

/-- The MCP configuration: `enabled` flag and the configured server names
(in `servers_config.keys()` order). -/
structure McpConfig where
  enabled : Bool
  servers : List String
deriving Repr

/-- Models `tool_name.startswith` applied to the server-name dash prefix,
on the character lists. -/
def nameStartsWith (p s : String) : Bool :=
  p.data.isPrefixOf s.data

/-- The first configured server whose `"{name}-"` prefixes the tool name
(the `for configured_server_name in servers_config.keys()` loop with
`break`). -/
def findServerForTool (servers : List String) (toolName : String) :
    Option String :=
  servers.find? (fun sn => nameStartsWith (sn ++ "-") toolName)

/-- The naming-convention validation loop inside
`_discover_mcp_tools_with_fallback`: each remote tool must match some
configured server prefix, else a `ValueError` is raised (modelled as
`Except.error`); matching tools are tagged with their server. -/
def validateMcpToolNames (servers : List String) :
    List String → Except String (List Tool)
  | [] => .ok []
  | n :: rest =>
    match findServerForTool servers n with
    | none => .error ("MCP tool " ++ n ++ " does not follow naming convention")
    | some sn =>
      match validateMcpToolNames servers rest with
      | .error e => .error e
      | .ok ts => .ok (({ name := n, mcpServerName := some sn } : Tool) :: ts)

/-- What the MCP client layer produced for this discovery pass:
`noClient` models `_create_mcp_client` returning `None`, `connectionError`
models an exception from client creation or `get_tools`, and `tools` the
successfully fetched remote tool names. -/
inductive McpClientResult where
  | noClient
  | connectionError
  | tools (names : List String)
deriving Repr

/-- Models `ToolDiscoveryService._discover_mcp_tools_with_fallback`: returns the
validated remote tools together with the new `_mcp_connection_failed` flag.
All exceptions inside the `try` — including the naming-convention
`ValueError` — are caught by the fallback, which returns `[]` and sets the
failure flag. -/
def discoverMcpToolsWithFallback (cfg : McpConfig) (prevFailed : Bool)
    (client : McpClientResult) : List Tool × Bool :=
  if !cfg.enabled then ([], prevFailed)
  else if prevFailed then ([], true)
  else
    match client with
    | .noClient => ([], prevFailed)
    | .connectionError => ([], true)
    | .tools ns =>
      match validateMcpToolNames cfg.servers ns with
      | .error _ => ([], true)
      | .ok ts => (ts, false)

/-- The duplicate names found by `_validate_tool_names`
(`name_counts` entries with count > 1, in first-occurrence order). -/
def duplicateNames (tools : List Tool) : List String :=
  (dedupFirst (tools.map (·.name))).filter
    (fun n => 1 < (tools.map (·.name)).count n)

/-- Models `ToolDiscoveryService._validate_tool_names`: raises `ValueError` iff
some name occurs more than once. -/
def validateToolNames (tools : List Tool) : Except String Unit :=
  if duplicateNames tools ≠ [] then
    .error "Duplicate tool names detected"
  else
    .ok ()

/-- Models `ToolDiscoveryService.discover_tools`: local tools plus MCP tools (with
fallback), validated for duplicate names. Returns the combined tool list and
the new `_mcp_connection_failed` flag, or the `ValueError` raised by
`_validate_tool_names`. -/
def discoverTools (localResult : Option (List String)) (cfg : McpConfig)
    (prevFailed : Bool) (client : McpClientResult) :
    Except String (List Tool × Bool) :=
  let locals := discoverLocalTools localResult
  let mcp := discoverMcpToolsWithFallback cfg prevFailed client
  let allTools := locals ++ mcp.1
  match validateToolNames allTools with
  | .error e => .error e
  | .ok _ => .ok (allTools, mcp.2)

/-! ## Change publisher (`tool_publisher.py`) -/

/-- A `ToolUpdateMessage`: the uuid `message_id` is modelled as a `Nat`
supplied by the caller (timestamps are not modelled). -/
structure ToolUpdateMessage where
  messageId : Nat
  addedTools : List ToolInfo
  removedTools : List ToolInfo
deriving DecidableEq, Repr

/-- The bounded retry-queue capacity: `self._max_queue_size = 100`. -/
def maxQueueSize : Nat := 100

/-- Models `ToolPublisherService._queue_message`: when the queue is at capacity the
oldest message is popped (and a warning logged) before the new message is
appended. The queue front is the oldest message. -/
def queueMessage (q : List ToolUpdateMessage) (m : ToolUpdateMessage) :
    List ToolUpdateMessage :=
  if maxQueueSize ≤ q.length then q.drop 1 ++ [m] else q ++ [m]

/-- Models `ToolPublisherService._process_queued_messages`: pop and send queued
messages in FIFO order; at the first send failure, the failing message and
everything behind it are re-queued in order and processing stops.
`send` models `_publish_message` (Redis rpush success). -/
def processQueuedMessages (send : ToolUpdateMessage → Bool) :
    List ToolUpdateMessage → List ToolUpdateMessage
  | [] => []
  | m :: rest =>
    if send m then processQueuedMessages send rest
    else m :: rest

/-- The messages `_process_queued_messages` attempts to send, in order:
the successfully sent prefix plus, if any, the first failing message. -/
def processQueuedAttempts (send : ToolUpdateMessage → Bool) :
    List ToolUpdateMessage → List ToolUpdateMessage
  | [] => []
  | m :: rest =>
    if send m then m :: processQueuedAttempts send rest
    else [m]

/-- Models `ToolPublisherService.publish_tool_changes`: no-op success on empty
changes; otherwise build the message and try one synchronous send — on
success also flush the retry queue, on failure append the new message to the
retry queue. Returns the success flag and the new queue. -/
def publishToolChanges (send : ToolUpdateMessage → Bool)
    (q : List ToolUpdateMessage) (msgId : Nat)
    (added removed : List ToolInfo) : Bool × List ToolUpdateMessage :=
  if added = [] ∧ removed = [] then (true, q)
  else
    let msg : ToolUpdateMessage := ⟨msgId, added, removed⟩
    if send msg then (true, processQueuedMessages send q)
    else (false, queueMessage q msg)

/-- One externally triggered publisher operation, with the Redis send
outcome for that operation modelled as an oracle. -/
inductive PublisherOp where
  | publish (send : ToolUpdateMessage → Bool) (msgId : Nat)
      (added removed : List ToolInfo)
  | retryQueued (send : ToolUpdateMessage → Bool)
  | clearQueue

/-- Effect of one publisher operation on the retry queue
(`publish_tool_changes`, `retry_queued_messages`, `clear_queue`). -/
def publisherStep (q : List ToolUpdateMessage) : PublisherOp →
    List ToolUpdateMessage
  | .publish send msgId added removed =>
    (publishToolChanges send q msgId added removed).2
  | .retryQueued send => processQueuedMessages send q
  | .clearQueue => []

/-- Run a sequence of publisher operations from the initial empty queue. -/
def runPublisherOps (ops : List PublisherOp) : List ToolUpdateMessage :=
  ops.foldl publisherStep []

/-! ## Run orchestrator (`agent_runner.py`) -/

/-- Models `content.endswith(chr(10))`, via the character list. -/
def endsWithNewline (s : String) : Bool :=
  s.data.getLast? = some (Char.ofNat 10)

/-- Whether a string ends with exactly one newline: last character is a
newline and the one before it (if any) is not. -/
def endsWithExactlyOneNewline (s : String) : Bool :=
  match s.data.reverse with
  | [] => false
  | c :: rest =>
    (c == Char.ofNat 10) &&
      (match rest with
       | [] => true
       | c2 :: _ => c2 != Char.ofNat 10)

/-- Models `_format_json_response` restricted to the `content` field (`none` models
a dict without a `content` key): a truthy content not already ending in a
newline gets one appended; anything else is passed through unchanged. -/
def formatResponseContent : Option String → Option String
  | none => none
  | some c =>
    if c ≠ "" ∧ !endsWithNewline c then some (c ++ String.mk [Char.ofNat 10])
    else some c

/-- One conversation entry handed to `update_tool_whitelist`, together with
the environment behaviour for it: `state` is the persisted thread state
(`none` = `graph.get_state(config).values is None`, `some wl` = a state dict
whose `tool_whitelist` reads as `wl`), and `updateError` is the exception
message raised by `graph.update_state` (`none` = success). -/
structure ConversationRef where
  conversationId : Nat
  serverId : Nat
  memberId : Nat
  state : Option (List String)
  updateError : Option String
deriving DecidableEq, Repr

/-- A per-conversation success record appended to `updated_conversations`. -/
structure ConvUpdateRecord where
  conversationId : Nat
  serverId : Nat
  previousToolCount : Nat
  newToolCount : Nat
deriving DecidableEq, Repr

/-- A per-conversation failure record appended to `failed_conversations`. -/
structure ConvFailureRecord where
  conversationId : Nat
  serverId : Nat
  error : String
deriving DecidableEq, Repr

/-- The result dict returned by `update_tool_whitelist`. -/
structure WhitelistUpdateResult where
  memberId : Nat
  totalConversations : Nat
  successfulUpdates : Nat
  failedUpdates : Nat
  updatedConversations : List ConvUpdateRecord
  failedConversations : List ConvFailureRecord
  addedTools : List String
  removedTools : List String
deriving Repr

/-- Python `set.add` over a duplicate-free list representation. -/
def setAdd (s : List String) (t : String) : List String :=
  if t ∈ s then s else s ++ [t]

/-- Python `set.discard` over the list representation. -/
def setDiscard (s : List String) (t : String) : List String :=
  s.filter (fun x => x ≠ t)

/-- The whitelist after applying the added and removed tools to a thread
whitelist (the two loops in `update_tool_whitelist`). -/
def applyWhitelistChanges (wl : List String)
    (addedTools removedTools : List String) : List String :=
  removedTools.foldl setDiscard (addedTools.foldl setAdd (dedupFirst wl))

/-- Process one conversation of the `update_tool_whitelist` loop: a missing
state is a per-conversation failure with error `"No state found"`; otherwise
the whitelist changes are applied and `graph.update_state` is attempted,
an exception being recorded as a failure with the exception text. -/
def processConversation (addedTools removedTools : List String)
    (c : ConversationRef) : Except ConvFailureRecord ConvUpdateRecord :=
  match c.state with
  | none => .error ⟨c.conversationId, c.serverId, "No state found"⟩
  | some wl =>
    let currentWhitelist := dedupFirst wl
    let updatedWhitelist := applyWhitelistChanges wl addedTools removedTools
    match c.updateError with
    | some e => .error ⟨c.conversationId, c.serverId, e⟩
    | none =>
      .ok ⟨c.conversationId, c.serverId, currentWhitelist.length,
           updatedWhitelist.length⟩

/-- The `for conversation in conversations` loop, accumulating the
`updated_conversations` and `failed_conversations` lists in order. -/
def whitelistLoop (addedTools removedTools : List String) :
    List ConversationRef → List ConvUpdateRecord × List ConvFailureRecord
  | [] => ([], [])
  | c :: rest =>
    let r := whitelistLoop addedTools removedTools rest
    match processConversation addedTools removedTools c with
    | .ok u => (u :: r.1, r.2)
    | .error f => (r.1, f :: r.2)

/-- Models `update_tool_whitelist`: apply the same add/remove to every
conversation's persisted whitelist independently and report per-conversation
success/failure counts. -/
def updateToolWhitelist (memberId : Nat) (conversations : List ConversationRef)
    (addedTools removedTools : List String) : WhitelistUpdateResult :=
  let r := whitelistLoop addedTools removedTools conversations
  { memberId := memberId
    totalConversations := conversations.length
    successfulUpdates := r.1.length
    failedUpdates := r.2.length
    updatedConversations := r.1
    failedConversations := r.2
    addedTools := addedTools
    removedTools := removedTools }

/-! ## Agent graph confirmation and rejection nodes (`graph.py`) -/

/-- A tool call of the latest assistant message (`{"id": ..., "name": ...}`;
arguments are irrelevant to the confirmation protocol). -/
structure ToolCall where
  id : String
  name : String
deriving DecidableEq, Repr

/-- A message of the thread log. Only assistant messages carry tool calls;
`tool` is a `ToolMessage` with its `tool_call_id`. -/
inductive Message where
  | system (content : String)
  | user (content : String)
  | assistant (content : String) (tool_calls : List ToolCall)
  | tool (content : String) (tool_call_id : String)
deriving DecidableEq, Repr

/-- The tool calls of a message (`getattr(msg, "tool_calls", [])`). -/
def Message.toolCalls : Message → List ToolCall
  | .assistant _ tcs => tcs
  | _ => []

/-- The `AgentState` fields the confirmation/rejection protocol touches. -/
structure AgentState where
  messages : List Message
  tool_call_ids : List String
  tool_whitelist : List String
deriving Repr

/-- The decision supplied when resuming an interrupt:
`{"approved": bool, "tool_whitelist_update": list[str]}`. -/
structure Decision where
  approved : Bool
  tool_whitelist_update : List String
deriving Repr

/-- Outcome of `HumanConfirmationNode.__call__` on a state: the goto target
together with the state after the node ran. The whitelist in the carried
state reflects the in-place `tool_whitelist.add` mutations (the local
variable aliases `state["tool_whitelist"]`); on rejection the `Command`
update additionally sets `tool_call_ids` to all call ids of the turn.
`suspended` models an interrupt still pending (no decision supplied). -/
inductive ConfirmOutcome where
  | reject (s : AgentState)
  | proceed (s : AgentState)
  | suspended
deriving Repr

/-- Models `route_to_human_confirmation_before_tools`: to `human_confirmation` iff
the last message has at least one tool call, else to `END`. -/
def routeToHumanConfirmation (s : AgentState) : String :=
  match s.messages.getLast? with
  | some m => if m.toolCalls.length > 0 then "human_confirmation" else "END"
  | none => "END"

/-- Merge a `tool_whitelist_update` into the whitelist
(`for tool in decision["tool_whitelist_update"]: tool_whitelist.add(tool)`). -/
def mergeWhitelist (wl : List String) (update : List String) : List String :=
  update.foldl setAdd wl

/-- The `for tool_call in last_message.tool_calls` loop of
`HumanConfirmationNode.__call__`: whitelisted calls are skipped, each other
call consumes the next decision; its whitelist update is merged *before* the
approval flag is tested, and a rejection returns immediately with the ids of
all calls of the turn. -/
def confirmLoop (s : AgentState) (allCalls : List ToolCall) :
    List ToolCall → List String → List Decision → ConfirmOutcome
  | [], wl, _ => .proceed { s with tool_whitelist := wl }
  | c :: rest, wl, ds =>
    if c.name ∈ wl then confirmLoop s allCalls rest wl ds
    else
      match ds with
      | [] => .suspended
      | d :: ds' =>
        let wl' := mergeWhitelist wl d.tool_whitelist_update
        if d.approved then confirmLoop s allCalls rest wl' ds'
        else
          .reject { s with
            tool_whitelist := wl'
            tool_call_ids := allCalls.map (·.id) }

/-- Specification predicate over the confirmation loop inputs: `true` iff,
walking the tool calls as `confirmLoop` does (skipping whitelisted calls and
consuming one decision per remaining call, merging each decision's whitelist
update as it goes), some reached non-whitelisted call is supplied a decision
with `approved = false`. -/
def someRejected : List ToolCall → List String → List Decision → Bool
  | [], _, _ => false
  | c :: rest, wl, ds =>
    if c.name ∈ wl then someRejected rest wl ds
    else
      match ds with
      | [] => false
      | d :: ds' =>
        if d.approved then
          someRejected rest (mergeWhitelist wl d.tool_whitelist_update) ds'
        else true

/-- Models `HumanConfirmationNode.__call__`, the interrupt decisions being supplied
as a list consumed in order (one per non-whitelisted tool call). An empty
message log or a last message without tool calls goes straight to
`reject_action` with no state update. -/
def humanConfirmationCall (s : AgentState) (ds : List Decision) :
    ConfirmOutcome :=
  match s.messages.getLast? with
  | none => .reject s
  | some last =>
    match last.toolCalls with
    | [] => .reject s
    | calls => confirmLoop s calls calls s.tool_whitelist ds

/-- The synthetic tool-result text appended by `RejectActionNode`. -/
def rejectText : String :=
  "Tool call operation cancelled by user. " ++ String.mk [Char.ofNat 10] ++
  "Note: the tool is still fine to use (accessible), it is OK to continue using it"

/-- Models `RejectActionNode.__call__`: append one `ToolMessage` with `rejectText`
per pending `tool_call_id` (no-op when there are none). -/
def rejectAction (s : AgentState) : AgentState :=
  if s.tool_call_ids = [] then s
  else
    { s with
      messages := s.messages ++ s.tool_call_ids.map (Message.tool rejectText) }

/-- One confirmation phase of a turn, following the compiled graph topology:
a rejection goes through `reject_action` to `END` (no tool executes), an
approval proceeds through `progress_report` and `context_injection` to the
`tools` node, which executes the calls of the last message. Returns the
resulting state and the list of tool calls executed this turn. -/
def runConfirmationPhase (s : AgentState) (ds : List Decision) :
    AgentState × List ToolCall :=
  match humanConfirmationCall s ds with
  | .reject s' => (rejectAction s', [])
  | .proceed s' => (s', (s'.messages.getLast?.map Message.toolCalls).getD [])
  | .suspended => (s, [])

/-! ## Helper lemmas -/

theorem mem_dedupFirstGo (n : String) :
    ∀ (l seen : List String), n ∈ dedupFirstGo l seen ↔ n ∈ l ∧ n ∉ seen := by
  intro l
  induction l with
  | nil => intro seen; simp [dedupFirstGo]
  | cons m rest ih =>
    intro seen
    by_cases hm : m ∈ seen
    · simp only [dedupFirstGo, if_pos hm, ih, List.mem_cons]
      by_cases hnm : n = m
      · subst hnm; tauto
      · tauto
    · simp only [dedupFirstGo, if_neg hm, List.mem_cons, ih]
      by_cases hnm : n = m
      · subst hnm; tauto
      · tauto

theorem mem_dedupFirst (n : String) (l : List String) :
    n ∈ dedupFirst l ↔ n ∈ l := by
  simp [dedupFirst, mem_dedupFirstGo]

theorem mem_mergeWhitelist (t : String) :
    ∀ (u wl : List String), t ∈ mergeWhitelist wl u ↔ t ∈ wl ∨ t ∈ u := by
  intro u
  induction u with
  | nil => intro wl; simp [mergeWhitelist]
  | cons x xs ih =>
    intro wl
    simp only [mergeWhitelist, List.foldl_cons] at *
    rw [ih (setAdd wl x)]
    unfold setAdd
    by_cases hx : x ∈ wl
    · simp only [if_pos hx, List.mem_cons]
      constructor
      · rintro (h | h) <;> tauto
      · rintro (h | h | h)
        · tauto
        · exact Or.inl (h ▸ hx)
        · tauto
    · simp only [if_neg hx, List.mem_append, List.mem_singleton, List.mem_cons]
      tauto

/-! ## C10: cached-inventory accessor conflates "no snapshot" with "empty snapshot" -/

/-- C10: `get_cached_tool_inventory` returns `None` both before any
discovery has run and whenever the cached inventory is the empty set (for
example after `get_tool_changes` ran on an empty tool list), so the accessor
cannot distinguish the two situations. -/
theorem c10_cached_inventory_conflates_empty :
    getCachedToolInventory none = none ∧
    getCachedToolInventory (some []) = getCachedToolInventory none ∧
    (∀ cached ts, ts = [] →
      getCachedToolInventory (getToolChanges cached ts).2 = none) ∧
    (∀ cached, getCachedToolInventory cached = none ↔
      cached = none ∨ cached = some []) := by
  refine ⟨rfl, rfl, ?_, ?_⟩
  · rintro cached ts rfl; rfl
  · intro cached
    match cached with
    | none => simp [getCachedToolInventory]
    | some [] => simp [getCachedToolInventory]
    | some (x :: xs) => simp [getCachedToolInventory]

/-- Witness for C10 at concrete inputs. -/
theorem c10_witness :
    getCachedToolInventory (getToolChanges (some ["weather-get"]) []).2 = none ∧
    (getCachedToolInventory (some []) = none ↔
      (some [] : Option (List String)) = none ∨ (some [] : Option (List String)) = some []) := by
  refine ⟨?_, ?_⟩
  · exact c10_cached_inventory_conflates_empty.2.2.1 (some ["weather-get"]) [] rfl
  · have h := c10_cached_inventory_conflates_empty.2.2.2 (some [])
    exact h

/-! ## C7: trailing-newline contract of emitted response chunks -/

/-- C7 counterexample: a content string already ending in two newlines is
passed through `_format_json_response` unchanged, so the emitted chunk's
non-empty content ends with more than one newline — the claim's
"exactly one" fails. -/
theorem c7_counterexample :
    formatResponseContent (some "hi\n\n") = some "hi\n\n" ∧
    endsWithExactlyOneNewline "hi\n\n" = false ∧
    "hi\n\n" ≠ "" := by
  refine ⟨?_, ?_, ?_⟩ <;> decide

/-- C7 amended: every non-empty content emitted by `_format_json_response`
ends with *at least* one newline; when the input content does not already
end with a newline exactly one is appended, while content already ending
with a newline is passed through unchanged (and may therefore retain more
than one trailing newline). -/
theorem c7_format_trailing_newline (c : String) :
    (endsWithNewline c = false → c ≠ "" →
      formatResponseContent (some c) = some (c ++ String.mk [Char.ofNat 10]) ∧
      endsWithExactlyOneNewline (c ++ String.mk [Char.ofNat 10]) = true) ∧
    (endsWithNewline c = true → formatResponseContent (some c) = some c) ∧
    (∀ out, formatResponseContent (some c) = some out → out ≠ "" →
      endsWithNewline out = true) := by
  refine ⟨?_, ?_, ?_⟩
  · intro hnl hne
    constructor
    · simp [formatResponseContent, hnl, hne]
    · have hdata : (c ++ String.mk [Char.ofNat 10]).data
          = c.data ++ [Char.ofNat 10] := by
        simp [String.data_append]
      simp only [endsWithExactlyOneNewline, hdata, List.reverse_append,
        List.reverse_cons, List.reverse_nil, List.nil_append,
        List.singleton_append]
      simp only [Bool.and_eq_true, beq_self_eq_true, true_and]
      match hrev : c.data.reverse with
      | [] => simp
      | c2 :: rest =>
        simp only [bne_iff_ne, ne_eq]
        intro hc2
        have hlast : c.data.getLast? = some (Char.ofNat 10) := by
          rw [List.getLast?_eq_head?_reverse, hrev, hc2]; rfl
        have : endsWithNewline c = true := by
          simp [endsWithNewline, hlast]
        rw [this] at hnl; exact Bool.noConfusion hnl
  · intro hnl
    simp [formatResponseContent, hnl]
  · intro out hout hne
    by_cases hc : c ≠ "" ∧ !endsWithNewline c
    · simp only [formatResponseContent, if_pos hc, Option.some_inj] at hout
      subst hout
      simp only [endsWithNewline, String.data_append]
      simp
    · simp only [formatResponseContent, if_neg hc, Option.some_inj] at hout
      subst hout
      rcases not_and_or.mp hc with h | h
      · exact absurd (not_not.mp h) hne
      · simpa using h

/-- Witness for the amended C7 theorem at concrete inputs. -/
theorem c7_witness :
    formatResponseContent (some "hello") =
      some ("hello" ++ String.mk [Char.ofNat 10]) ∧
    endsWithExactlyOneNewline ("hello" ++ String.mk [Char.ofNat 10]) = true ∧
    formatResponseContent (some "done\n") = some "done\n" := by
  have h1 := (c7_format_trailing_newline "hello").1 (by decide) (by decide)
  have h2 := (c7_format_trailing_newline "done\n").2.1 (by decide)
  exact ⟨h1.1, h1.2, h2⟩

/-! ## C4: duplicate-name validation in `discover_tools` -/

theorem duplicateNames_eq_nil_iff (tools : List Tool) :
    duplicateNames tools = [] ↔ (tools.map (·.name)).Nodup := by
  rw [List.nodup_iff_count_le_one]
  unfold duplicateNames
  rw [List.filter_eq_nil_iff]
  constructor
  · intro h a
    by_cases ha : a ∈ tools.map (·.name)
    · have := h a ((mem_dedupFirst a _).mpr ha)
      simp only [decide_eq_true_eq] at this
      omega
    · rw [List.count_eq_zero_of_not_mem ha]
      omega
  · intro h a _
    simp only [decide_eq_true_eq]
    have := h a
    omega

theorem validateToolNames_ok_iff (tools : List Tool) :
    validateToolNames tools = .ok () ↔ (tools.map (·.name)).Nodup := by
  rw [← duplicateNames_eq_nil_iff]
  unfold validateToolNames
  by_cases h : duplicateNames tools = []
  · simp [h]
  · simp [h]

/-- C4: `discover_tools` raises an error if and only if two of the tools it
gathers (local plus post-fallback remote, in any combination) share a name;
with all names distinct it returns the combined tool list (and the updated
MCP failure flag) without raising. -/
theorem c4_uniqueness_iff_error (localResult : Option (List String))
    (cfg : McpConfig) (prevFailed : Bool) (client : McpClientResult) :
    ((∃ e, discoverTools localResult cfg prevFailed client = .error e) ↔
      ¬ (((discoverLocalTools localResult ++
          (discoverMcpToolsWithFallback cfg prevFailed client).1).map
            (·.name)).Nodup)) ∧
    ((((discoverLocalTools localResult ++
        (discoverMcpToolsWithFallback cfg prevFailed client).1).map
          (·.name)).Nodup) →
      discoverTools localResult cfg prevFailed client =
        .ok (discoverLocalTools localResult ++
              (discoverMcpToolsWithFallback cfg prevFailed client).1,
             (discoverMcpToolsWithFallback cfg prevFailed client).2)) := by
  have key : discoverTools localResult cfg prevFailed client =
      (match validateToolNames (discoverLocalTools localResult ++
          (discoverMcpToolsWithFallback cfg prevFailed client).1) with
       | .error e => .error e
       | .ok _ => .ok (discoverLocalTools localResult ++
            (discoverMcpToolsWithFallback cfg prevFailed client).1,
            (discoverMcpToolsWithFallback cfg prevFailed client).2)) := rfl
  constructor
  · constructor
    · rintro ⟨e, he⟩ hnodup
      rw [key, (validateToolNames_ok_iff _).mpr hnodup] at he
      exact Except.noConfusion he
    · intro hnot
      match hv : validateToolNames (discoverLocalTools localResult ++
          (discoverMcpToolsWithFallback cfg prevFailed client).1) with
      | .error e => exact ⟨e, by rw [key, hv]⟩
      | .ok u =>
        cases u
        exact absurd ((validateToolNames_ok_iff _).mp hv) hnot
  · intro hnodup
    rw [key, (validateToolNames_ok_iff _).mpr hnodup]

/-- Witness for C4 at concrete inputs: one local and one remote tool with
distinct names are returned combined without an error. -/
theorem c4_witness :
    discoverTools (some ["weather"]) ⟨true, ["server1"]⟩ false
      (.tools ["server1-forecast"]) =
      .ok (discoverLocalTools (some ["weather"]) ++
            (discoverMcpToolsWithFallback ⟨true, ["server1"]⟩ false
              (.tools ["server1-forecast"])).1,
           (discoverMcpToolsWithFallback ⟨true, ["server1"]⟩ false
              (.tools ["server1-forecast"])).2) :=
  (c4_uniqueness_iff_error (some ["weather"]) ⟨true, ["server1"]⟩ false
      (.tools ["server1-forecast"])).2 (by decide)

/-! ## C2: remote naming convention and the MCP fallback -/

theorem validateMcpToolNames_error_of_misnamed (servers : List String) :
    ∀ (ns : List String) (n : String), n ∈ ns →
    findServerForTool servers n = none →
    ∃ e, validateMcpToolNames servers ns = .error e := by
  intro ns
  induction ns with
  | nil => intro n hn _; exact absurd hn (List.not_mem_nil n)
  | cons m rest ih =>
    intro n hn hmiss
    rcases List.mem_cons.mp hn with rfl | hn'
    · exact ⟨"MCP tool " ++ n ++ " does not follow naming convention",
        by simp [validateMcpToolNames, hmiss]⟩
    · match hfind : findServerForTool servers m with
      | none => exact ⟨"MCP tool " ++ m ++ " does not follow naming convention",
          by simp [validateMcpToolNames, hfind]⟩
      | some sn =>
        obtain ⟨e, he⟩ := ih n hn' hmiss
        exact ⟨e, by simp [validateMcpToolNames, hfind, he]⟩

/-- C2 counterexample: with server `server1` configured and the remote tool
named `invalid-tool-name`, the naming validation raises, yet
`discover_tools` returns `.ok` (the local-only tool list with the failure
flag) instead of failing — the claim that discovery raises a hard error is
false on the code. -/
theorem c2_counterexample :
    validateMcpToolNames ["server1"] ["invalid-tool-name"] =
      .error "MCP tool invalid-tool-name does not follow naming convention" ∧
    discoverTools (some []) ⟨true, ["server1"]⟩ false
      (.tools ["invalid-tool-name"]) = .ok ([], true) := by
  constructor <;> rfl

/-- C2 corrected: a remote tool name that matches no configured server
prefix makes the validation loop inside `_discover_mcp_tools_with_fallback`
raise a `ValueError`, but the surrounding fallback handler catches it:
`discover_tools` does not fail — it returns only the local tools (every
remote tool of that pass omitted) and records the MCP connection as
failed. -/
theorem c2_misnamed_tool_falls_back (cfg : McpConfig)
    (localNames ns : List String) (n : String)
    (henabled : cfg.enabled = true)
    (hn : n ∈ ns) (hmiss : findServerForTool cfg.servers n = none)
    (hlocal : ((discoverLocalTools (some localNames)).map (·.name)).Nodup) :
    (∃ e, validateMcpToolNames cfg.servers ns = .error e) ∧
    discoverTools (some localNames) cfg false (.tools ns) =
      .ok (discoverLocalTools (some localNames), true) := by
  obtain ⟨e, he⟩ := validateMcpToolNames_error_of_misnamed cfg.servers ns n hn hmiss
  refine ⟨⟨e, he⟩, ?_⟩
  have hmcp : discoverMcpToolsWithFallback cfg false (.tools ns) = ([], true) := by
    simp [discoverMcpToolsWithFallback, henabled, he]
  have key : discoverTools (some localNames) cfg false (.tools ns) =
      (match validateToolNames (discoverLocalTools (some localNames) ++
          (discoverMcpToolsWithFallback cfg false (.tools ns)).1) with
       | .error e => .error e
       | .ok _ => .ok (discoverLocalTools (some localNames) ++
            (discoverMcpToolsWithFallback cfg false (.tools ns)).1,
            (discoverMcpToolsWithFallback cfg false (.tools ns)).2)) := rfl
  rw [key, hmcp]
  simp only [List.append_nil]
  rw [(validateToolNames_ok_iff _).mpr hlocal]

/-- Witness for the corrected C2 at concrete inputs. -/
theorem c2_witness :
    (∃ e, validateMcpToolNames ["server1"] ["server1-ok", "badtool"] =
      .error e) ∧
    discoverTools (some ["local1"]) ⟨true, ["server1"]⟩ false
      (.tools ["server1-ok", "badtool"]) =
      .ok (discoverLocalTools (some ["local1"]), true) :=
  c2_misnamed_tool_falls_back ⟨true, ["server1"]⟩ ["local1"]
    ["server1-ok", "badtool"] "badtool" rfl (by decide) (by decide) (by decide)

/-! ## C3: first discovery is all-added; snapshot diff and replacement -/

/-- C3: on a fresh service the first `get_tool_changes(T1)` reports every
tool of `T1` as added (each entry carrying its source tag) and nothing
removed; an immediately following `get_tool_changes(T2)` reports
added = T2 − T1 and removed = T1 − T2 by name (removed entries tagged
`"unknown"`), and replaces the cached snapshot with the set of names of
`T2`. -/
theorem c3_first_discovery_and_snapshot_diff (T1 T2 : List Tool) :
    ((getToolChanges none T1).1.1 = currentToolInfo T1 ∧
     (∀ t ∈ T1, ∃ i ∈ (getToolChanges none T1).1.1, i.name = t.name) ∧
     (getToolChanges none T1).1.2 = []) ∧
    ((∀ i, i ∈ (getToolChanges (getToolChanges none T1).2 T2).1.1 ↔
        (i ∈ currentToolInfo T2 ∧ i.name ∉ T1.map (·.name))) ∧
     (∀ r, r ∈ (getToolChanges (getToolChanges none T1).2 T2).1.2 ↔
        (r.mcpServerName = "unknown" ∧ r.name ∈ T1.map (·.name) ∧
         r.name ∉ T2.map (·.name))) ∧
     (∃ l, (getToolChanges (getToolChanges none T1).2 T2).2 = some l ∧
        ∀ n, n ∈ l ↔ n ∈ T2.map (·.name))) := by
  constructor
  · refine ⟨rfl, ?_, rfl⟩
    intro t ht
    refine ⟨⟨t.name, dictServer T1 t.name⟩, ?_, rfl⟩
    show _ ∈ currentToolInfo T1
    unfold currentToolInfo
    exact List.mem_map.mpr
      ⟨t.name, (mem_dedupFirst _ _).mpr (List.mem_map_of_mem _ ht), rfl⟩
  · refine ⟨?_, ?_, ⟨dedupFirst (T2.map Tool.name), rfl, ?_⟩⟩
    · intro i
      show i ∈ (compareToolSets (some (dedupFirst (T1.map (·.name)))) T2).1 ↔ _
      simp only [compareToolSets, List.mem_filter, Bool.not_eq_true',
        decide_eq_false_iff_not, mem_dedupFirst]
    · intro r
      show r ∈ (compareToolSets (some (dedupFirst (T1.map (·.name)))) T2).2 ↔ _
      simp only [compareToolSets, List.mem_map, List.mem_filter,
        Bool.not_eq_true', decide_eq_false_iff_not, mem_dedupFirst]
      constructor
      · rintro ⟨n, ⟨hn1, hn2⟩, rfl⟩
        exact ⟨rfl, hn1, hn2⟩
      · rintro ⟨hr, h1, h2⟩
        refine ⟨r.name, ⟨h1, h2⟩, ?_⟩
        cases r with
        | mk nm sv => cases hr; rfl
    · intro n
      exact mem_dedupFirst n _

/-- Witness for C3 at concrete tool lists. -/
theorem c3_witness :
    ∃ i ∈ (getToolChanges none [⟨"t1", some "built-in"⟩]).1.1, i.name = "t1" :=
  (c3_first_discovery_and_snapshot_diff [⟨"t1", some "built-in"⟩]
    [⟨"t2", some "s1"⟩]).1.2.1 ⟨"t1", some "built-in"⟩ (by decide)

/-! ## C5: FIFO flush of the retry queue -/

theorem processQueued_decomp (send : ToolUpdateMessage → Bool) :
    ∀ (q1 : List ToolUpdateMessage) (m : ToolUpdateMessage)
      (q2 : List ToolUpdateMessage),
    (∀ x ∈ q1, send x = true) → send m = false →
    processQueuedMessages send (q1 ++ m :: q2) = m :: q2 ∧
    processQueuedAttempts send (q1 ++ m :: q2) = q1 ++ [m] := by
  intro q1
  induction q1 with
  | nil =>
    intro m q2 _ hm
    simp [processQueuedMessages, processQueuedAttempts, hm]
  | cons x rest ih =>
    intro m q2 hall hm
    have hx : send x = true := hall x (List.mem_cons_self x rest)
    have hrest : ∀ y ∈ rest, send y = true :=
      fun y hy => hall y (List.mem_cons_of_mem x hy)
    have := ih m q2 hrest hm
    simp [processQueuedMessages, processQueuedAttempts, hx, this.1, this.2]

theorem processQueued_all_sent (send : ToolUpdateMessage → Bool) :
    ∀ q : List ToolUpdateMessage, (∀ x ∈ q, send x = true) →
    processQueuedMessages send q = [] ∧ processQueuedAttempts send q = q := by
  intro q
  induction q with
  | nil => intro _; exact ⟨rfl, rfl⟩
  | cons x rest ih =>
    intro hall
    have hx : send x = true := hall x (List.mem_cons_self x rest)
    have := ih (fun y hy => hall y (List.mem_cons_of_mem x hy))
    simp [processQueuedMessages, processQueuedAttempts, hx, this.1, this.2]

/-- C5: when a new non-empty change message publishes successfully with the
retry queue holding `m1..mn` oldest first, the flush attempts those messages
in strict FIFO order; if the first failing message is `mi` (every earlier
one sends successfully), the new queue is exactly `mi..mn` in the original
relative order — nothing is dropped or reordered — and if every queued
message sends, the queue empties with all messages attempted in order. -/
theorem c5_fifo_flush (send : ToolUpdateMessage → Bool)
    (q : List ToolUpdateMessage) (msgId : Nat)
    (added removed : List ToolInfo)
    (hne : ¬ (added = [] ∧ removed = []))
    (hsend : send ⟨msgId, added, removed⟩ = true) :
    publishToolChanges send q msgId added removed =
      (true, processQueuedMessages send q) ∧
    (∀ (q1 : List ToolUpdateMessage) (m : ToolUpdateMessage)
        (q2 : List ToolUpdateMessage),
      q = q1 ++ m :: q2 → (∀ x ∈ q1, send x = true) → send m = false →
      processQueuedMessages send q = m :: q2 ∧
      processQueuedAttempts send q = q1 ++ [m]) ∧
    ((∀ x ∈ q, send x = true) →
      processQueuedMessages send q = [] ∧
      processQueuedAttempts send q = q) := by
  refine ⟨?_, ?_, ?_⟩
  · simp [publishToolChanges, hne, hsend]
  · rintro q1 m q2 rfl hall hm
    exact processQueued_decomp send q1 m q2 hall hm
  · intro hall
    exact processQueued_all_sent send q hall

/-- Witness for C5: a concrete queue of three messages whose second message
fails to send. -/
theorem c5_witness :
    (publishToolChanges (fun m => m.messageId != 2)
        [⟨10, [⟨"a", "s"⟩], []⟩, ⟨2, [⟨"b", "s"⟩], []⟩, ⟨30, [⟨"c", "s"⟩], []⟩]
        99 [⟨"x", "s"⟩] [] =
      (true, processQueuedMessages (fun m => m.messageId != 2)
        [⟨10, [⟨"a", "s"⟩], []⟩, ⟨2, [⟨"b", "s"⟩], []⟩, ⟨30, [⟨"c", "s"⟩], []⟩])) ∧
    (processQueuedMessages (fun m => m.messageId != 2)
        [⟨10, [⟨"a", "s"⟩], []⟩, ⟨2, [⟨"b", "s"⟩], []⟩, ⟨30, [⟨"c", "s"⟩], []⟩] =
      [⟨2, [⟨"b", "s"⟩], []⟩, ⟨30, [⟨"c", "s"⟩], []⟩]) ∧
    (processQueuedAttempts (fun m => m.messageId != 2)
        [⟨10, [⟨"a", "s"⟩], []⟩, ⟨2, [⟨"b", "s"⟩], []⟩, ⟨30, [⟨"c", "s"⟩], []⟩] =
      [⟨10, [⟨"a", "s"⟩], []⟩] ++ [⟨2, [⟨"b", "s"⟩], []⟩]) := by
  have h := c5_fifo_flush (fun m => m.messageId != 2)
    [⟨10, [⟨"a", "s"⟩], []⟩, ⟨2, [⟨"b", "s"⟩], []⟩, ⟨30, [⟨"c", "s"⟩], []⟩]
    99 [⟨"x", "s"⟩] [] (by decide) (by decide)
  have h2 := h.2.1 [⟨10, [⟨"a", "s"⟩], []⟩] ⟨2, [⟨"b", "s"⟩], []⟩
    [⟨30, [⟨"c", "s"⟩], []⟩] rfl (by decide) (by decide)
  exact ⟨h.1, h2.1, h2.2⟩

/-! ## C6: bounded retry queue -/

theorem processQueued_length_le (send : ToolUpdateMessage → Bool) :
    ∀ q : List ToolUpdateMessage,
    (processQueuedMessages send q).length ≤ q.length := by
  intro q
  induction q with
  | nil => simp [processQueuedMessages]
  | cons m rest ih =>
    by_cases h : send m = true
    · simp only [processQueuedMessages, h, if_true, List.length_cons]
      omega
    · simp only [Bool.not_eq_true] at h
      simp [processQueuedMessages, h]

theorem queueMessage_length_le (q : List ToolUpdateMessage)
    (m : ToolUpdateMessage) (h : q.length ≤ maxQueueSize) :
    (queueMessage q m).length ≤ maxQueueSize := by
  unfold queueMessage
  by_cases hf : maxQueueSize ≤ q.length
  · rw [if_pos hf]
    simp only [List.length_append, List.length_drop, List.length_singleton]
    simp only [maxQueueSize] at *
    omega
  · rw [if_neg hf]
    simp only [List.length_append, List.length_singleton]
    simp only [maxQueueSize] at *
    omega

theorem publisherStep_length_le (q : List ToolUpdateMessage)
    (op : PublisherOp) (h : q.length ≤ maxQueueSize) :
    (publisherStep q op).length ≤ maxQueueSize := by
  cases op with
  | publish send msgId added removed =>
    show (publishToolChanges send q msgId added removed).2.length ≤ maxQueueSize
    unfold publishToolChanges
    by_cases he : added = [] ∧ removed = []
    · rw [if_pos he]; exact h
    · rw [if_neg he]
      by_cases hs : send ⟨msgId, added, removed⟩ = true
      · simp only [hs, if_true]
        exact le_trans (processQueued_length_le send q) h
      · simp only [Bool.not_eq_true] at hs
        simp only [hs, Bool.false_eq_true, if_false]
        exact queueMessage_length_le q _ h
  | retryQueued send => exact le_trans (processQueued_length_le send q) h
  | clearQueue => simp [publisherStep, maxQueueSize]

theorem foldl_publisherStep_length_le :
    ∀ (ops : List PublisherOp) (q : List ToolUpdateMessage),
    q.length ≤ maxQueueSize → (ops.foldl publisherStep q).length ≤ maxQueueSize := by
  intro ops
  induction ops with
  | nil => intro q h; simpa using h
  | cons op rest ih =>
    intro q h
    rw [List.foldl_cons]
    exact ih _ (publisherStep_length_le q op h)

theorem foldl_queueMessage_formula :
    ∀ (ms q : List ToolUpdateMessage), q.length ≤ maxQueueSize →
    ms.foldl queueMessage q =
      (q ++ ms).drop (q.length + ms.length - maxQueueSize) := by
  intro ms
  induction ms with
  | nil =>
    intro q hq
    simp only [List.foldl_nil, List.append_nil, List.length_nil,
      Nat.add_zero, Nat.sub_eq_zero_of_le hq, List.drop_zero]
  | cons m ms' ih =>
    intro q hq
    rw [List.foldl_cons]
    by_cases h : maxQueueSize ≤ q.length
    · have hlen : q.length = maxQueueSize := le_antisymm hq h
      cases q with
      | nil =>
        rw [List.length_nil] at hlen
        exact absurd hlen.symm (Nat.ne_of_gt (by simp [maxQueueSize]))
      | cons a q' =>
        have hlen' : q'.length + 1 = maxQueueSize := by simpa using hlen
        have hqm : queueMessage (a :: q') m = q' ++ [m] := by
          simp only [queueMessage, if_pos h, List.drop_succ_cons,
            List.drop_zero]
        have hq2 : (q' ++ [m]).length ≤ maxQueueSize := by
          simp only [List.length_append, List.length_cons, List.length_nil]
          simp only [maxQueueSize] at *
          omega
        rw [hqm, ih _ hq2]
        have e1 : (q' ++ [m]).length + ms'.length - maxQueueSize
            = ms'.length := by
          simp only [List.length_append, List.length_cons, List.length_nil]
          simp only [maxQueueSize] at *
          omega
        have e2 : (a :: q').length + (m :: ms').length - maxQueueSize =
            ms'.length + 1 := by
          simp only [List.length_cons]
          simp only [maxQueueSize] at *
          omega
        rw [e1, e2, List.append_assoc, List.singleton_append,
          List.cons_append, List.drop_succ_cons]
    · have hqm : queueMessage q m = q ++ [m] := by
        simp only [queueMessage, if_neg h]
      have hq2 : (q ++ [m]).length ≤ maxQueueSize := by
        simp only [List.length_append, List.length_cons, List.length_nil]
        simp only [maxQueueSize] at *
        omega
      rw [hqm, ih _ hq2]
      have e : (q ++ [m]).length + ms'.length - maxQueueSize =
          q.length + (m :: ms').length - maxQueueSize := by
        simp only [List.length_append, List.length_cons, List.length_nil]
        simp only [maxQueueSize] at *
        omega
      rw [e, List.append_assoc, List.singleton_append]

theorem foldl_failed_publish :
    ∀ (inputs : List (Nat × List ToolInfo × List ToolInfo))
      (q : List ToolUpdateMessage),
    (∀ p ∈ inputs, ¬ (p.2.1 = [] ∧ p.2.2 = [])) →
    (inputs.map (fun p =>
        PublisherOp.publish (fun _ => false) p.1 p.2.1 p.2.2)).foldl
      publisherStep q =
    (inputs.map (fun p => (⟨p.1, p.2.1, p.2.2⟩ : ToolUpdateMessage))).foldl
      queueMessage q := by
  intro inputs
  induction inputs with
  | nil => intro q _; rfl
  | cons p rest ih =>
    intro q hall
    simp only [List.map_cons, List.foldl_cons]
    have hp := hall p (List.mem_cons_self p rest)
    have hstep : publisherStep q
        (.publish (fun _ => false) p.1 p.2.1 p.2.2) =
        queueMessage q ⟨p.1, p.2.1, p.2.2⟩ := by
      simp [publisherStep, publishToolChanges, hp]
    rw [hstep]
    exact ih _ (fun x hx => hall x (List.mem_cons_of_mem p hx))

/-- C6: the retry buffer never exceeds the configured capacity (100) after
any sequence of publisher operations starting from the empty queue, and a
sequence of `capacity + 1` failed publishes of non-empty change messages
leaves the buffer holding exactly the 100 most recent messages in arrival
order, the single oldest having been dropped. -/
theorem c6_bounded_queue :
    (∀ ops : List PublisherOp,
      (runPublisherOps ops).length ≤ maxQueueSize) ∧
    (∀ inputs : List (Nat × List ToolInfo × List ToolInfo),
      inputs.length = maxQueueSize + 1 →
      (∀ p ∈ inputs, ¬ (p.2.1 = [] ∧ p.2.2 = [])) →
      runPublisherOps (inputs.map
          (fun p => PublisherOp.publish (fun _ => false) p.1 p.2.1 p.2.2)) =
        (inputs.map
          (fun p => (⟨p.1, p.2.1, p.2.2⟩ : ToolUpdateMessage))).drop 1) := by
  constructor
  · intro ops
    exact foldl_publisherStep_length_le ops [] (by simp)
  · intro inputs hlen hall
    unfold runPublisherOps
    rw [foldl_failed_publish inputs [] hall,
      foldl_queueMessage_formula _ [] (by simp)]
    simp only [List.nil_append, List.length_nil, List.length_map, hlen]
    have e : 0 + (maxQueueSize + 1) - maxQueueSize = 1 := by
      simp only [maxQueueSize]
    rw [e]

/-- Witness for C6: a single clear operation keeps the bound, and 101
concrete failed publishes drop exactly the oldest message. -/
theorem c6_witness :
    (runPublisherOps [PublisherOp.clearQueue]).length ≤ maxQueueSize ∧
    runPublisherOps ((List.replicate (maxQueueSize + 1)
        ((7 : Nat), [(⟨"t", "s"⟩ : ToolInfo)], ([] : List ToolInfo))).map
        (fun p => PublisherOp.publish (fun _ => false) p.1 p.2.1 p.2.2)) =
      ((List.replicate (maxQueueSize + 1)
        ((7 : Nat), [(⟨"t", "s"⟩ : ToolInfo)], ([] : List ToolInfo))).map
        (fun p => (⟨p.1, p.2.1, p.2.2⟩ : ToolUpdateMessage))).drop 1 := by
  constructor
  · exact c6_bounded_queue.1 [PublisherOp.clearQueue]
  · refine c6_bounded_queue.2 _ (by simp) ?_
    intro p hp
    rw [List.eq_of_mem_replicate hp]
    decide

/-! ## C9: bulk whitelist update tolerates missing thread state -/

theorem whitelistLoop_counts (addedTools removedTools : List String) :
    ∀ convs : List ConversationRef,
    (whitelistLoop addedTools removedTools convs).1.length +
      (whitelistLoop addedTools removedTools convs).2.length =
      convs.length := by
  intro convs
  induction convs with
  | nil => rfl
  | cons c rest ih =>
    simp only [whitelistLoop]
    match h : processConversation addedTools removedTools c with
    | .ok u =>
      simp only [h, List.length_cons]
      omega
    | .error f =>
      simp only [h, List.length_cons]
      omega

theorem whitelistLoop_missing_state (addedTools removedTools : List String) :
    ∀ convs : List ConversationRef, ∀ c ∈ convs, c.state = none →
    (⟨c.conversationId, c.serverId, "No state found"⟩ : ConvFailureRecord) ∈
      (whitelistLoop addedTools removedTools convs).2 := by
  intro convs
  induction convs with
  | nil => intro c hc; exact absurd hc (List.not_mem_nil c)
  | cons d rest ih =>
    intro c hc hstate
    rcases List.mem_cons.mp hc with rfl | hc'
    · have hp : processConversation addedTools removedTools c =
          .error ⟨c.conversationId, c.serverId, "No state found"⟩ := by
        simp [processConversation, hstate]
      simp only [whitelistLoop, hp]
      exact List.mem_cons_self _ _
    · have hmem := ih c hc' hstate
      simp only [whitelistLoop]
      match hp : processConversation addedTools removedTools d with
      | .ok u => simpa using hmem
      | .error f => exact List.mem_cons_of_mem f hmem

/-- C9: for a non-empty bulk whitelist update, a conversation whose
persisted state is missing is recorded as a per-conversation failure with
error `"No state found"` while the rest of the batch is still processed,
and the reported success and failure counts sum to the number of
conversations supplied. -/
theorem c9_bulk_whitelist_update (memberId : Nat)
    (conversations : List ConversationRef)
    (addedTools removedTools : List String)
    (hne : conversations ≠ []) :
    (updateToolWhitelist memberId conversations addedTools
        removedTools).successfulUpdates +
      (updateToolWhitelist memberId conversations addedTools
        removedTools).failedUpdates = conversations.length ∧
    (updateToolWhitelist memberId conversations addedTools
        removedTools).totalConversations = conversations.length ∧
    (updateToolWhitelist memberId conversations addedTools
        removedTools).updatedConversations.length =
      (updateToolWhitelist memberId conversations addedTools
        removedTools).successfulUpdates ∧
    (updateToolWhitelist memberId conversations addedTools
        removedTools).failedConversations.length =
      (updateToolWhitelist memberId conversations addedTools
        removedTools).failedUpdates ∧
    (∀ c ∈ conversations, c.state = none →
      (⟨c.conversationId, c.serverId, "No state found"⟩ : ConvFailureRecord) ∈
        (updateToolWhitelist memberId conversations addedTools
          removedTools).failedConversations) := by
  refine ⟨?_, rfl, rfl, rfl, ?_⟩
  · exact whitelistLoop_counts addedTools removedTools conversations
  · intro c hc hstate
    exact whitelistLoop_missing_state addedTools removedTools
      conversations c hc hstate

/-- Witness for C9: the spec's example scenario — two conversations, one
with persisted state and one without, added `t1`, removed `t2`. -/
theorem c9_witness :
    (updateToolWhitelist 789 [⟨1, 123, 789, some ["t2"], none⟩,
        ⟨2, 123, 789, none, none⟩] ["t1"] ["t2"]).successfulUpdates +
      (updateToolWhitelist 789 [⟨1, 123, 789, some ["t2"], none⟩,
        ⟨2, 123, 789, none, none⟩] ["t1"] ["t2"]).failedUpdates = 2 ∧
    (⟨2, 123, "No state found"⟩ : ConvFailureRecord) ∈
      (updateToolWhitelist 789 [⟨1, 123, 789, some ["t2"], none⟩,
        ⟨2, 123, 789, none, none⟩] ["t1"] ["t2"]).failedConversations := by
  have h := c9_bulk_whitelist_update 789
    [⟨1, 123, 789, some ["t2"], none⟩, ⟨2, 123, 789, none, none⟩]
    ["t1"] ["t2"] (by decide)
  exact ⟨h.1, h.2.2.2.2 ⟨2, 123, 789, none, none⟩ (by decide) rfl⟩

/-! ## C1: all-or-nothing rejection of a tool-call batch -/

theorem confirmLoop_reject_of_someRejected (s : AgentState)
    (allCalls : List ToolCall) :
    ∀ (calls : List ToolCall) (wl : List String) (ds : List Decision),
    someRejected calls wl ds = true →
    ∃ wl', confirmLoop s allCalls calls wl ds =
      ConfirmOutcome.reject
        { s with
          tool_whitelist := wl'
          tool_call_ids := allCalls.map (·.id) } := by
  intro calls
  induction calls with
  | nil =>
    intro wl ds h
    simp [someRejected] at h
  | cons c rest ih =>
    intro wl ds h
    by_cases hwl : c.name ∈ wl
    · simp only [someRejected, if_pos hwl] at h
      simpa only [confirmLoop, if_pos hwl] using ih wl ds h
    · simp only [someRejected, if_neg hwl] at h
      match ds with
      | [] => exact absurd h (by simp)
      | d :: ds' =>
        by_cases hap : d.approved = true
        · simp only [hap, if_true] at h
          simpa only [confirmLoop, if_neg hwl, hap, if_true] using
            ih (mergeWhitelist wl d.tool_whitelist_update) ds' h
        · simp only [Bool.not_eq_true] at hap
          refine ⟨mergeWhitelist wl d.tool_whitelist_update, ?_⟩
          simp only [confirmLoop, if_neg hwl, hap, Bool.false_eq_true,
            if_false]

/-- C1: when the latest assistant message carries `k ≥ 1` tool calls, the
run reaches the human-confirmation step, and the decision supplied for a
reached non-whitelisted call has `approved = false`, the run routes to the
rejection step, a synthetic cancelled-by-user tool-result message is
appended for each of the `k` tool-call ids, and none of the `k` calls is
executed that turn. -/
theorem c1_reject_all_or_nothing (s : AgentState) (last : Message)
    (calls : List ToolCall) (ds : List Decision)
    (hlast : s.messages.getLast? = some last)
    (hcalls : last.toolCalls = calls)
    (hk : 1 ≤ calls.length)
    (hroute : routeToHumanConfirmation s = "human_confirmation")
    (hrej : someRejected calls s.tool_whitelist ds = true) :
    (∃ s', humanConfirmationCall s ds = .reject s') ∧
    (runConfirmationPhase s ds).2 = [] ∧
    (runConfirmationPhase s ds).1.messages =
      s.messages ++ calls.map (fun c => Message.tool rejectText c.id) := by
  cases calls with
  | nil => simp at hk
  | cons c rest =>
    have key : humanConfirmationCall s ds =
        confirmLoop s (c :: rest) (c :: rest) s.tool_whitelist ds := by
      simp [humanConfirmationCall, hlast, hcalls]
    obtain ⟨wl', hrw⟩ := confirmLoop_reject_of_someRejected s (c :: rest)
      (c :: rest) s.tool_whitelist ds hrej
    have hids : ((c :: rest).map (·.id)) ≠ [] := by simp
    refine ⟨⟨_, key.trans hrw⟩, ?_, ?_⟩
    · simp only [runConfirmationPhase, key, hrw]
    · simp only [runConfirmationPhase, key, hrw, rejectAction,
        if_neg hids, List.map_map]
      rfl

/-- Witness for C1: two tool calls, empty whitelist, single rejecting
decision — both calls receive the cancellation message and none executes. -/
theorem c1_witness :
    (∃ s', humanConfirmationCall
        ⟨[Message.assistant "x" [⟨"id1", "tA"⟩, ⟨"id2", "tB"⟩]], [], []⟩
        [⟨false, []⟩] = .reject s') ∧
    (runConfirmationPhase
        ⟨[Message.assistant "x" [⟨"id1", "tA"⟩, ⟨"id2", "tB"⟩]], [], []⟩
        [⟨false, []⟩]).2 = [] ∧
    (runConfirmationPhase
        ⟨[Message.assistant "x" [⟨"id1", "tA"⟩, ⟨"id2", "tB"⟩]], [], []⟩
        [⟨false, []⟩]).1.messages =
      [Message.assistant "x" [⟨"id1", "tA"⟩, ⟨"id2", "tB"⟩]] ++
        [(⟨"id1", "tA"⟩ : ToolCall), ⟨"id2", "tB"⟩].map
          (fun c => Message.tool rejectText c.id) :=
  c1_reject_all_or_nothing
    ⟨[Message.assistant "x" [⟨"id1", "tA"⟩, ⟨"id2", "tB"⟩]], [], []⟩
    (Message.assistant "x" [⟨"id1", "tA"⟩, ⟨"id2", "tB"⟩])
    [⟨"id1", "tA"⟩, ⟨"id2", "tB"⟩] [⟨false, []⟩]
    rfl rfl (by decide) rfl (by decide)

/-! ## C8: whitelist updates are merged before the approval flag is read -/

theorem confirmLoop_first_reject_merges (s : AgentState)
    (allCalls : List ToolCall) (U : List String) (ds : List Decision) :
    ∀ (calls : List ToolCall) (wl : List String),
    (∃ c ∈ calls, c.name ∉ wl) →
    ∃ s', confirmLoop s allCalls calls wl (⟨false, U⟩ :: ds) = .reject s' ∧
      ∀ t ∈ U, t ∈ s'.tool_whitelist := by
  intro calls
  induction calls with
  | nil =>
    rintro wl ⟨c, hc, _⟩
    exact absurd hc (List.not_mem_nil c)
  | cons c rest ih =>
    rintro wl ⟨c0, hc0, hname⟩
    by_cases hwl : c.name ∈ wl
    · have hc0' : c0 ∈ rest := by
        rcases List.mem_cons.mp hc0 with rfl | h
        · exact absurd hwl hname
        · exact h
      have hres := ih wl ⟨c0, hc0', hname⟩
      simpa only [confirmLoop, if_pos hwl] using hres
    · refine ⟨{ s with
          tool_whitelist := mergeWhitelist wl U
          tool_call_ids := allCalls.map (·.id) }, ?_, ?_⟩
      · simp only [confirmLoop, if_neg hwl, Bool.false_eq_true, if_false]
      · intro t ht
        exact (mem_mergeWhitelist t U wl).mpr (Or.inr ht)

/-- C8: the `tool_whitelist_update` names of a decision are merged into the
thread's whitelist before the `approved` flag is evaluated (the local set
aliases the state's set, mutated in place), so a rejecting decision that
also carries whitelist additions still leaves those additions in the
thread's whitelist after the turn. -/
theorem c8_update_merged_before_approval (s : AgentState) (last : Message)
    (calls : List ToolCall) (U : List String) (ds : List Decision)
    (hlast : s.messages.getLast? = some last)
    (hcalls : last.toolCalls = calls)
    (hexists : ∃ c ∈ calls, c.name ∉ s.tool_whitelist) :
    ∃ s', humanConfirmationCall s (⟨false, U⟩ :: ds) = .reject s' ∧
      ∀ t ∈ U, t ∈ s'.tool_whitelist := by
  rcases hexists with ⟨c0, hc0, hn0⟩
  cases calls with
  | nil => exact absurd hc0 (List.not_mem_nil c0)
  | cons c rest =>
    have key : humanConfirmationCall s (⟨false, U⟩ :: ds) =
        confirmLoop s (c :: rest) (c :: rest) s.tool_whitelist
          (⟨false, U⟩ :: ds) := by
      simp [humanConfirmationCall, hlast, hcalls]
    rw [key]
    exact confirmLoop_first_reject_merges s (c :: rest) U ds (c :: rest)
      s.tool_whitelist ⟨c0, hc0, hn0⟩

/-- Witness for C8: a rejecting decision carrying whitelist addition `tC`
leaves `tC` in the resulting state's whitelist. -/
theorem c8_witness :
    ∃ s', humanConfirmationCall
        ⟨[Message.assistant "y" [⟨"id9", "tZ"⟩]], [], []⟩
        [⟨false, ["tC"]⟩] = .reject s' ∧
      ∀ t ∈ ["tC"], t ∈ s'.tool_whitelist :=
  c8_update_merged_before_approval
    ⟨[Message.assistant "y" [⟨"id9", "tZ"⟩]], [], []⟩
    (Message.assistant "y" [⟨"id9", "tZ"⟩]) [⟨"id9", "tZ"⟩] ["tC"] []
    rfl rfl (by decide)

end QuipBot
